import Mathlib

/-!
Verification of the line-selection utility (`line.rs`) and the stream-duplication
utility (`sss.rs`) of the dagan-utils repository.  The Rust code is shallowly
embedded: strings become `List Char`, `usize` values become `Nat` bounded by
`USIZE_MAX`, `NonZeroUsize` becomes a `Nat` known to be positive at the places
the code guarantees it, and fallible operations return `Except String` or
`Option` mirroring `anyhow::Result` and failed parses.
-/

namespace DaganUtils

/-- Value of `usize::MAX` (and of `NonZeroUsize::MAX`) on the 64-bit targets the
tool is built for. -/
def USIZE_MAX : Nat := 2 ^ 64 - 1

/-- Accumulating core of `usize::from_str`: each character must be a decimal
digit, and the accumulated value must never exceed `usize::MAX` (Rust's
checked multiply/add reports overflow as a parse error). -/
def parseUsizeCore : List Char → Nat → Option Nat
  | [], acc => some acc
  | c :: cs, acc =>
    if c.isDigit then
      if acc * 10 + (c.toNat - 48) ≤ USIZE_MAX then
        parseUsizeCore cs (acc * 10 + (c.toNat - 48))
      else
        none
    else
      none

/-- Model of `str::parse::<usize>`: an optional leading `+` sign followed by at
least one decimal digit, rejecting the empty string and overflow. -/
def parseUsize (s : List Char) : Option Nat :=
  match s with
  | [] => none
  | c :: cs =>
    if c = '+' then
      if cs = [] then none else parseUsizeCore cs 0
    else
      parseUsizeCore (c :: cs) 0

/-- Model of `str::split_once`: split at the first occurrence of `sep`,
returning the text before and after it, or `none` when `sep` does not occur. -/
def splitOnce (sep : List Char) : List Char → Option (List Char × List Char)
  | [] => none
  | c :: cs =>
    if sep.isPrefixOf (c :: cs) then
      some ([], (c :: cs).drop sep.length)
    else
      match splitOnce sep cs with
      | some (l, r) => some (c :: l, r)
      | none => none

/-- Model of `str::split` with a single-character separator: every maximal
separator-free segment, including empty ones; the empty string yields one empty
segment. -/
def rustSplit (sep : Char) : List Char → List (List Char)
  | [] => [[]]
  | c :: cs =>
    if c = sep then
      [] :: rustSplit sep cs
    else
      match rustSplit sep cs with
      | t :: ts => (c :: t) :: ts
      | [] => [[c]]

/-- The `Pattern` struct of `line.rs`: optional start and (inclusive) end line
numbers.  The Rust fields are `NonZeroUsize`; here they are `Nat`s that the
parser only ever sets to positive values. -/
structure Pattern where
  start : Option Nat
  «end» : Option Nat
deriving DecidableEq

/-- `Pattern::is_included`: whether a 1-indexed line number falls inside the
pattern's bounds. -/
def Pattern.is_included (p : Pattern) (line : Nat) : Bool :=
  if p.start.any (fun s => decide (line < s)) then false
  else if p.«end».any (fun e => decide (line > e)) then false
  else true

/-- The `try_nonzero` helper composed with a completed `usize` parse:
`NonZeroUsize::new` fails exactly on zero. -/
def parseBound (s : List Char) : Except String Nat :=
  match parseUsize s with
  | some num => if num = 0 then Except.error "Line numbers are 1-indexed" else Except.ok num
  | none => Except.error "invalid digit found in string"

/-- The start-bound arm of `Pattern::parse`: empty text means no bound,
otherwise a positive integer. -/
def parseStart (s : List Char) : Except String (Option Nat) :=
  if s = [] then Except.ok none
  else
    match parseBound s with
    | Except.ok n => Except.ok (some n)
    | Except.error er => Except.error er

/-- The end-bound arm of `Pattern::parse`: empty text means no bound; a
leading `=` marks an inclusive bound; otherwise the exclusive bound must
exceed 1 and is stored as `value - 1` (inclusive form). -/
def parseEnd (e : List Char) : Except String (Option Nat) :=
  if e = [] then Except.ok none
  else if e.head? = some '=' then
    match parseBound (e.drop 1) with
    | Except.ok n => Except.ok (some n)
    | Except.error er => Except.error er
  else
    match parseUsize e with
    | some num =>
      if num ≤ 1 then Except.error "End of exclusive range must be greater than 1"
      else if num - 1 = 0 then Except.error "Line numbers are 1-indexed"
      else Except.ok (some (num - 1))
    | none => Except.error "invalid digit found in string"

/-- `Pattern::parse`: split on the first `..`; a token without `..` is a single
line number producing `start = end = N`; a reversed bounded range is an
error. -/
def Pattern.parse (pattern : List Char) : Except String Pattern :=
  match splitOnce ('.' :: '.' :: []) pattern with
  | some (s, e) =>
    match parseStart s with
    | Except.error er => Except.error er
    | Except.ok start =>
      match parseEnd e with
      | Except.error er => Except.error er
      | Except.ok stop =>
        match start, stop with
        | some st, some en =>
          if st > en then Except.error "Reverse patterns not supported"
          else Except.ok (Pattern.mk start stop)
        | _, _ => Except.ok (Pattern.mk start stop)
  | none =>
    match parseUsize pattern with
    | some n =>
      if n = 0 then Except.error "Line numbers are 1-indexed"
      else Except.ok (Pattern.mk (some n) (some n))
    | none => Except.error "Could not interpret line number pattern"

/-- The `Options` struct of `line.rs`. -/
structure Options where
  show_line_number : Bool
deriving DecidableEq

/-- The ordering-validation `try_fold` of `write_lines`: starting from a
boundless pattern, each step checks that the previous pattern's end
(`NonZeroUsize::MAX` when absent) does not exceed the current pattern's start
(`NonZeroUsize::MIN`, i.e. 1, when absent), skipping the check when the
previous pattern has no bound at all. -/
def orderFold : Pattern → List Pattern → Except String Pattern
  | prev, [] => Except.ok prev
  | prev, cur :: rest =>
    if prev.start.isSome || prev.«end».isSome then
      if prev.«end».getD USIZE_MAX > cur.start.getD 1 then
        Except.error "Lines currently must be given in order"
      else
        orderFold cur rest
    else
      orderFold cur rest

/-- The bytes written for one input line by the inner pattern loop of
`write_lines`: once per pattern that includes the line's number, the optional
`number TAB` prefix, the line text, and a newline. -/
def lineOutput (opts : Options) (number : Nat) (line : List Char) : List Pattern → List Char
  | [] => []
  | p :: ps =>
    (if p.is_included number then
      (if opts.show_line_number then (Nat.repr number).data ++ '\t' :: [] else []) ++
        line ++ '\n' :: []
    else []) ++ lineOutput opts number line ps

/-- The `can_break` flag computed by the inner pattern loop of `write_lines`:
it survives (stays `true`) only when every pattern has a present end that does
not exceed the current line number. -/
def lineCanBreak (number : Nat) : List Pattern → Bool
  | [] => true
  | p :: ps =>
    (match p.«end» with
     | some e => decide (e ≤ number)
     | none => false) && lineCanBreak number ps

/-- The line loop of `write_lines` over the already-split input lines,
carrying the 1-indexed line number and stopping early when `can_break`
survives a line. -/
def writeLoop (pats : List Pattern) (opts : Options) : Nat → List (List Char) → List Char
  | _, [] => []
  | number, line :: rest =>
    if lineCanBreak number pats then
      lineOutput opts number line pats
    else
      lineOutput opts number line pats ++ writeLoop pats opts (number + 1) rest

/-- Helper of the `BufRead::lines` model: the finished line held in the
reversed accumulator, with the carriage return that immediately preceded the
newline stripped. -/
def stripCRrev (cur : List Char) : List Char :=
  match cur with
  | '\r' :: rest => rest.reverse
  | _ => cur.reverse

/-- Accumulating model of `BufRead::lines`: lines are terminated by `\n`
(stripping a preceding `\r`); a final unterminated line is yielded as-is; no
trailing empty line is produced after a final newline. -/
def rustLinesAux : List Char → List Char → List (List Char)
  | cur, [] => if cur = [] then [] else [cur.reverse]
  | cur, c :: cs =>
    if c = '\n' then stripCRrev cur :: rustLinesAux [] cs
    else rustLinesAux (c :: cur) cs

/-- Model of `BufRead::lines` applied to the whole input. -/
def rustLines (s : List Char) : List (List Char) := rustLinesAux [] s

/-- `write_lines` of `line.rs`: parse the comma-separated pattern list, run the
ordering validation, then stream the input lines through the selection loop.
The output sink `fout` is passed in and returned (unchanged when a pattern
error occurs before any input is read); the `Option String` is the returned
error, `none` on success. -/
def write_lines (fin fout patterns : List Char) (options : Options) :
    List Char × Option String :=
  match (rustSplit ',' patterns).mapM Pattern.parse with
  | Except.error e => (fout, some e)
  | Except.ok pats =>
    match orderFold (Pattern.mk none none) pats with
    | Except.error e => (fout, some e)
    | Except.ok _ => (fout ++ writeLoop pats options 1 (rustLines fin), none)

/-- Whether an `Except` result is a success. -/
def exceptIsOk {α : Type} (e : Except String α) : Bool :=
  match e with
  | Except.ok _ => true
  | Except.error _ => false

/-- A pattern-list string is valid when every token parses and the ordering
validation passes: exactly the up-front checks of `write_lines`. -/
def patternsValid (patStr : List Char) : Bool :=
  match (rustSplit ',' patStr).mapM Pattern.parse with
  | Except.error _ => false
  | Except.ok pats => exceptIsOk (orderFold (Pattern.mk none none) pats)

/-- Concatenate records, terminating each with a newline. -/
def joinRecords : List (List Char) → List Char
  | [] => []
  | l :: ls => l ++ '\n' :: joinRecords ls

/-- Effective end used by the ordering validation: `NonZeroUsize::MAX` when
absent. -/
def effEnd (p : Pattern) : Nat := p.«end».getD USIZE_MAX

/-- Effective start used by the ordering validation: `NonZeroUsize::MIN`
(that is, 1) when absent. -/
def effStart (p : Pattern) : Nat := p.start.getD 1

/-- The adjacent-pair condition enforced by the ordering validation: when the
previous pattern has any bound set, its effective end must not exceed the
current pattern's effective start. -/
def orderedPair (prev cur : Pattern) : Bool :=
  !(prev.start.isSome || prev.«end».isSome) || decide (effEnd prev ≤ effStart cur)

/-- Every adjacent pair of the list satisfies `orderedPair`. -/
def orderedList : List Pattern → Bool
  | [] => true
  | [_] => true
  | a :: b :: rest => orderedPair a b && orderedList (b :: rest)

/-- Variant of the line loop with the early-termination `break` removed. -/
def writeLoopNoBreak (pats : List Pattern) (opts : Options) : Nat → List (List Char) → List Char
  | _, [] => []
  | number, line :: rest =>
    lineOutput opts number line pats ++ writeLoopNoBreak pats opts (number + 1) rest

/-- Modelled from the spec: the variant of `write_lines` that "always reads the
input to end-of-stream", that is, `write_lines` with the early-termination
break removed and everything else unchanged. -/
def write_lines_to_eof (fin fout patterns : List Char) (options : Options) :
    List Char × Option String :=
  match (rustSplit ',' patterns).mapM Pattern.parse with
  | Except.error e => (fout, some e)
  | Except.ok pats =>
    match orderFold (Pattern.mk none none) pats with
    | Except.error e => (fout, some e)
    | Except.ok _ => (fout ++ writeLoopNoBreak pats options 1 (rustLines fin), none)

/-- The `PAGE_SIZE` constant of `sss.rs`: the size of the read buffer. -/
def PAGE_SIZE : Nat := 4096

/-- `stream_split` of `sss.rs`: the input arrives as the successive non-empty
chunks produced by `Read::read` (each at most `PAGE_SIZE` bytes); every chunk
is appended to both sinks until a zero-length read ends the loop. -/
def stream_split : List (List Nat) → List Nat → List Nat → List Nat × List Nat
  | [], stdout, stderr => (stdout, stderr)
  | chunk :: rest, stdout, stderr => stream_split rest (stdout ++ chunk) (stderr ++ chunk)

instance {α : Type} [DecidableEq α] : DecidableEq (Except String α) := fun a b =>
  match a, b with
  | Except.ok x, Except.ok y =>
    match decEq x y with
    | isTrue h => isTrue (congrArg Except.ok h)
    | isFalse h => isFalse (fun hc => h (Except.ok.inj hc))
  | Except.error x, Except.error y =>
    match decEq x y with
    | isTrue h => isTrue (congrArg Except.error h)
    | isFalse h => isFalse (fun hc => h (Except.error.inj hc))
  | Except.ok _, Except.error _ => isFalse (fun hc => Except.noConfusion hc)
  | Except.error _, Except.ok _ => isFalse (fun hc => Except.noConfusion hc)

/-! ### Helper lemmas -/

theorem orderedList_cons_boundless (pats : List Pattern) :
    orderedList (Pattern.mk none none :: pats) = orderedList pats := by
  cases pats with
  | nil => rfl
  | cons cur rest => simp [orderedList, orderedPair]

theorem orderFold_isOk (pats : List Pattern) :
    ∀ prev : Pattern, exceptIsOk (orderFold prev pats) = orderedList (prev :: pats) := by
  induction pats with
  | nil => intro prev; rfl
  | cons cur rest ih =>
    intro prev
    by_cases hb : (prev.start.isSome || prev.«end».isSome) = true
    · by_cases hcmp : prev.«end».getD USIZE_MAX > cur.start.getD 1
      · simp [orderFold, hb, hcmp, exceptIsOk, orderedList, orderedPair, effEnd, effStart]
        try omega
      · simp [orderFold, hb, hcmp, ih cur, orderedList, orderedPair, effEnd, effStart]
        try omega
    · simp [orderFold, hb, ih cur, orderedList, orderedPair]

theorem orderFold_error_msg (pats : List Pattern) :
    ∀ (prev : Pattern) (e : String), orderFold prev pats = Except.error e →
      e = "Lines currently must be given in order" := by
  induction pats with
  | nil => intro prev e h; simp [orderFold] at h
  | cons cur rest ih =>
    intro prev e h
    rw [orderFold] at h
    by_cases hb : (prev.start.isSome || prev.«end».isSome) = true
    · rw [if_pos hb] at h
      by_cases hcmp : prev.«end».getD USIZE_MAX > cur.start.getD 1
      · rw [if_pos hcmp] at h
        exact (Except.error.inj h).symm
      · rw [if_neg hcmp] at h
        exact ih cur e h
    · rw [if_neg hb] at h
      exact ih cur e h

theorem splitOnce_dots_append (sa sb : List Char) (h : '.' ∉ sa) :
    splitOnce ('.' :: '.' :: []) (sa ++ '.' :: '.' :: sb) = some (sa, sb) := by
  induction sa with
  | nil => simp [splitOnce, List.isPrefixOf]
  | cons c cs ih =>
    have hc : ¬ (('.' : Char) = c) := by
      intro hh
      exact h (by simp [← hh])
    have hmem : '.' ∉ cs := fun hh => h (List.mem_cons_of_mem _ hh)
    simp [splitOnce, List.isPrefixOf, hc, ih hmem]

theorem splitOnce_dots_none (s : List Char) (h : '.' ∉ s) :
    splitOnce ('.' :: '.' :: []) s = none := by
  induction s with
  | nil => rfl
  | cons c cs ih =>
    have hc : ¬ (('.' : Char) = c) := by
      intro hh
      exact h (by simp [← hh])
    have hmem : '.' ∉ cs := fun hh => h (List.mem_cons_of_mem _ hh)
    simp [splitOnce, List.isPrefixOf, hc, ih hmem]

theorem parseUsize_nil : parseUsize [] = none := rfl

theorem parseUsize_eq_sign : ∀ rest : List Char, parseUsize ('=' :: rest) = none := by
  intro rest
  simp [parseUsize, parseUsizeCore]

theorem lineOutput_empty_of_canBreak (pats : List Pattern) (n m : Nat)
    (hcb : lineCanBreak n pats = true) (hnm : n < m) (opts : Options) (line : List Char) :
    lineOutput opts m line pats = [] := by
  induction pats with
  | nil => rfl
  | cons p ps ih =>
    rw [lineCanBreak] at hcb
    rw [Bool.and_eq_true] at hcb
    cases he : p.«end» with
    | none => rw [he] at hcb; simp at hcb
    | some e =>
      rw [he] at hcb
      have hle : e ≤ n := by
        have := hcb.1
        simpa using this
      have hinc : p.is_included m = false := by
        rw [Pattern.is_included]
        by_cases hs : p.start.any (fun s => decide (m < s)) = true
        · simp [hs]
        · simp [hs, he]
          omega
      simp [lineOutput, hinc, ih hcb.2]

theorem writeLoopNoBreak_empty (pats : List Pattern) (opts : Options) (n : Nat)
    (hcb : lineCanBreak n pats = true) :
    ∀ (ls : List (List Char)) (m : Nat), n < m → writeLoopNoBreak pats opts m ls = [] := by
  intro ls
  induction ls with
  | nil => intro m _; rfl
  | cons line rest ih =>
    intro m hm
    rw [writeLoopNoBreak, lineOutput_empty_of_canBreak pats n m hcb hm, ih (m + 1) (by omega)]
    rfl

theorem writeLoop_eq_noBreak (pats : List Pattern) (opts : Options) :
    ∀ (ls : List (List Char)) (n : Nat),
      writeLoop pats opts n ls = writeLoopNoBreak pats opts n ls := by
  intro ls
  induction ls with
  | nil => intro n; rfl
  | cons line rest ih =>
    intro n
    rw [writeLoop, writeLoopNoBreak]
    by_cases hcb : lineCanBreak n pats = true
    · rw [if_pos hcb, writeLoopNoBreak_empty pats opts n hcb rest (n + 1) (by omega)]
      simp
    · rw [if_neg hcb, ih]

theorem write_lines_parse_err (fin fout patStr : List Char) (opts : Options) (e : String)
    (hp : (rustSplit ',' patStr).mapM Pattern.parse = Except.error e) :
    write_lines fin fout patStr opts = (fout, some e) := by
  unfold write_lines
  rw [hp]

theorem write_lines_parse_ok (fin fout patStr : List Char) (opts : Options)
    (pats : List Pattern)
    (hp : (rustSplit ',' patStr).mapM Pattern.parse = Except.ok pats) :
    write_lines fin fout patStr opts =
      (match orderFold (Pattern.mk none none) pats with
       | Except.error e => (fout, some e)
       | Except.ok _ => (fout ++ writeLoop pats opts 1 (rustLines fin), none)) := by
  unfold write_lines
  rw [hp]

theorem write_lines_to_eof_parse_err (fin fout patStr : List Char) (opts : Options)
    (e : String)
    (hp : (rustSplit ',' patStr).mapM Pattern.parse = Except.error e) :
    write_lines_to_eof fin fout patStr opts = (fout, some e) := by
  unfold write_lines_to_eof
  rw [hp]

theorem write_lines_to_eof_parse_ok (fin fout patStr : List Char) (opts : Options)
    (pats : List Pattern)
    (hp : (rustSplit ',' patStr).mapM Pattern.parse = Except.ok pats) :
    write_lines_to_eof fin fout patStr opts =
      (match orderFold (Pattern.mk none none) pats with
       | Except.error e => (fout, some e)
       | Except.ok _ => (fout ++ writeLoopNoBreak pats opts 1 (rustLines fin), none)) := by
  unfold write_lines_to_eof
  rw [hp]

theorem stream_split_flatten (chunks : List (List Nat)) : ∀ stdout stderr : List Nat,
    stream_split chunks stdout stderr =
      (stdout ++ chunks.flatten, stderr ++ chunks.flatten) := by
  induction chunks with
  | nil => intro stdout stderr; simp [stream_split]
  | cons c cs ih =>
    intro stdout stderr
    rw [stream_split, ih]
    simp

theorem writeLoop_unbounded : ∀ (ls : List (List Char)) (n : Nat),
    writeLoop (Pattern.mk none none :: []) (Options.mk false) n ls = joinRecords ls := by
  intro ls
  induction ls with
  | nil => intro n; rfl
  | cons line rest ih =>
    intro n
    simp [writeLoop, lineCanBreak, lineOutput, Pattern.is_included, joinRecords, ih]

theorem parseStart_of_usize (sa : List Char) (A : Nat) (hA : A ≠ 0)
    (hsa : parseUsize sa = some A) : parseStart sa = Except.ok (some A) := by
  have hne : sa ≠ [] := by intro h; rw [h, parseUsize_nil] at hsa; cases hsa
  simp [parseStart, hne, parseBound, hsa, hA]

theorem parseEnd_inclusive (sb : List Char) (B : Nat) (hB : B ≠ 0)
    (hsb : parseUsize sb = some B) :
    parseEnd ('=' :: sb) = Except.ok (some B) := by
  simp [parseEnd, parseBound, hsb, hB]

theorem parseEnd_exclusive (sb : List Char) (B : Nat) (hB : 1 < B)
    (hsb : parseUsize sb = some B) :
    parseEnd sb = Except.ok (some (B - 1)) := by
  have hne : sb ≠ [] := by intro h; rw [h, parseUsize_nil] at hsb; cases hsb
  obtain ⟨c, rest, rfl⟩ := List.exists_cons_of_ne_nil hne
  have hc : c ≠ '=' := by
    intro h
    subst h
    rw [parseUsize_eq_sign] at hsb
    cases hsb
  simp [parseEnd, hc, hsb, show ¬ (B ≤ 1) by omega, show ¬ (B - 1 = 0) by omega]

theorem parseEnd_exclusive_small (sb : List Char) (B : Nat) (hB : B ≤ 1)
    (hsb : parseUsize sb = some B) :
    parseEnd sb = Except.error "End of exclusive range must be greater than 1" := by
  have hne : sb ≠ [] := by intro h; rw [h, parseUsize_nil] at hsb; cases hsb
  obtain ⟨c, rest, rfl⟩ := List.exists_cons_of_ne_nil hne
  have hc : c ≠ '=' := by
    intro h
    subst h
    rw [parseUsize_eq_sign] at hsb
    cases hsb
  simp [parseEnd, hc, hsb, hB]

theorem rustLinesAux_no_newline : ∀ t cur : List Char, '\n' ∉ t →
    cur.reverse ++ t ≠ [] → rustLinesAux cur t = [cur.reverse ++ t] := by
  intro t
  induction t with
  | nil =>
    intro cur _ h
    have hcur : cur ≠ [] := by simpa using h
    simp [rustLinesAux, hcur]
  | cons c cs ih =>
    intro cur ht _
    have hc : c ≠ '\n' := fun hh => ht (by simp [hh])
    have hcs : '\n' ∉ cs := fun hh => ht (List.mem_cons_of_mem _ hh)
    have ihc := ih (c :: cur) hcs (by simp)
    simp [rustLinesAux, hc, ihc]

theorem rustLinesAux_mid (t : List Char) (ht : '\n' ∉ t) (hne : t ≠ []) :
    ∀ (s cur : List Char),
      rustLinesAux cur (s ++ '\n' :: t) = rustLinesAux cur (s ++ '\n' :: []) ++ [t] := by
  intro s
  induction s with
  | nil =>
    intro cur
    have h1 : rustLinesAux [] t = [t] := by
      have h2 := rustLinesAux_no_newline t [] ht (by simp [hne])
      simpa using h2
    simp [rustLinesAux, h1]
  | cons a rest ih =>
    intro cur
    by_cases ha : a = '\n'
    · subst ha
      simp [rustLinesAux, ih]
    · simp [rustLinesAux, ha, ih]

/-! ### Claims -/

/-- Claim C1, amended: for every parsed pattern list, the selector raises the
ordering error exactly when some adjacent pair (prev, this) violates the
ordering check, where prev having any bound set is required, an absent end of
prev is treated as `NonZeroUsize::MAX` (2^64 - 1, not infinity) and an absent
start of this is treated as `NonZeroUsize::MIN` (1, not 0); on violation the
error is raised before any input is read: the result is the same for every
input and the output sink is returned untouched. -/
theorem c1_ordering_error (patStr fin fout : List Char) (opts : Options)
    (pats : List Pattern)
    (hp : (rustSplit ',' patStr).mapM Pattern.parse = Except.ok pats) :
    (orderedList pats = true → (write_lines fin fout patStr opts).2 = none) ∧
    (orderedList pats = false →
      write_lines fin fout patStr opts =
        (fout, some "Lines currently must be given in order")) := by
  have hiff := orderFold_isOk pats (Pattern.mk none none)
  rw [orderedList_cons_boundless] at hiff
  rw [write_lines_parse_ok fin fout patStr opts pats hp]
  constructor
  · intro hord
    rw [hord] at hiff
    cases ho : orderFold (Pattern.mk none none) pats with
    | error e => rw [ho] at hiff; simp [exceptIsOk] at hiff
    | ok p => rfl
  · intro hord
    rw [hord] at hiff
    cases ho : orderFold (Pattern.mk none none) pats with
    | error e =>
      have hmsg := orderFold_error_msg pats (Pattern.mk none none) e ho
      subst hmsg
      rfl
    | ok p => rw [ho] at hiff; simp [exceptIsOk] at hiff

/-- Witness for C1 at the pattern list `"5,4"`: parsing succeeds, the pair is
out of order, and the selector returns the ordering error with the sink
untouched. -/
theorem c1_witness :
    write_lines (String.data "Foo") [] (String.data "5,4") (Options.mk false) =
      ([], some "Lines currently must be given in order") := by
  exact (c1_ordering_error (String.data "5,4") (String.data "Foo") [] (Options.mk false)
    (Pattern.mk (some 5) (some 5) :: Pattern.mk (some 4) (some 4) :: [])
    (by decide)).2 (by decide)

/-- Counterexample to C1 as stated: the pattern list `"1,.."` parses to the
adjacent pair (prev = 1..=1, this = unbounded); prev has a bound set and
effective_end(prev) = 1 exceeds 0, the claim's effective start for an absent
start, so the claim demands an ordering error — yet the selector succeeds
(the code treats the absent start as `NonZeroUsize::MIN` = 1, and 1 > 1 is
false). -/
theorem c1_counterexample :
    (rustSplit ',' (String.data "1,..")).mapM Pattern.parse =
      Except.ok (Pattern.mk (some 1) (some 1) :: Pattern.mk none none :: []) ∧
    (Pattern.mk (some 1) (some 1)).start.isSome = true ∧
    (Pattern.mk (some 1) (some 1)).«end».getD USIZE_MAX > 0 ∧
    (write_lines (String.data "Foo") [] (String.data "1,..") (Options.mk false)).2 =
      none := by
  refine ⟨by decide, by decide, by decide, by decide⟩

/-- Claim C2, amended: selecting with pattern `".."` and `showLineNumber =
false` emits every line produced by the line reader — newline-delimited, the
newline and a carriage return immediately preceding it stripped — unchanged,
in original order, each exactly once, each as its own newline-terminated
record. -/
theorem c2_select_all (fin fout : List Char) :
    write_lines fin fout (String.data "..") (Options.mk false) =
      (fout ++ joinRecords (rustLines fin), none) := by
  rw [write_lines_parse_ok fin fout (String.data "..") (Options.mk false)
    (Pattern.mk none none :: []) (by decide)]
  show (fout ++ writeLoop (Pattern.mk none none :: []) (Options.mk false) 1 (rustLines fin),
      none) = _
  rw [writeLoop_unbounded]

/-- Counterexample to C2 as stated: on the input `"A\r\n"`, whose only
newline-delimited line is `"A\r"`, the selector with pattern `".."` emits
`"A\n"` — not the line `"A\r"` reproduced unchanged as its own record
(`BufRead::lines` strips the carriage return preceding the newline). -/
theorem c2_counterexample :
    write_lines (String.data "A\r\n") [] (String.data "..") (Options.mk false) =
      (String.data "A\n", none) ∧
    String.data "A\n" ≠ String.data "A\r" ++ '\n' :: [] := by
  refine ⟨by decide, by decide⟩

/-- Claim C6: the selector with the early-termination break produces exactly
the same result as the variant that always reads the input to end-of-stream,
for every input, output sink, pattern-list string and options. -/
theorem c6_break_equiv (fin fout patterns : List Char) (options : Options) :
    write_lines fin fout patterns options =
      write_lines_to_eof fin fout patterns options := by
  cases hm : (rustSplit ',' patterns).mapM Pattern.parse with
  | error e =>
    rw [write_lines_parse_err fin fout patterns options e hm,
      write_lines_to_eof_parse_err fin fout patterns options e hm]
  | ok pats =>
    rw [write_lines_parse_ok fin fout patterns options pats hm,
      write_lines_to_eof_parse_ok fin fout patterns options pats hm,
      writeLoop_eq_noBreak]

/-- Claim C7: for every pattern-list string rejected by the up-front checks
(a malformed token or an ordering violation), `write_lines` returns an error
and the output sink is exactly as it was before the call, whatever the
input. -/
theorem c7_fail_fast (patStr : List Char) (h : patternsValid patStr = false)
    (fin fout : List Char) (opts : Options) :
    ∃ e, write_lines fin fout patStr opts = (fout, some e) := by
  rw [patternsValid] at h
  cases hm : (rustSplit ',' patStr).mapM Pattern.parse with
  | error e => exact ⟨e, write_lines_parse_err fin fout patStr opts e hm⟩
  | ok pats =>
    rw [hm] at h
    have h2 : exceptIsOk (orderFold (Pattern.mk none none) pats) = false := h
    cases ho : orderFold (Pattern.mk none none) pats with
    | error e =>
      exact ⟨e, by rw [write_lines_parse_ok fin fout patStr opts pats hm, ho]⟩
    | ok p => rw [ho] at h2; simp [exceptIsOk] at h2

/-- Witness for C7 at the malformed list `"x"` and the out-of-order list
`"5,4"`. -/
theorem c7_witness :
    (∃ e, write_lines (String.data "Foo") [] (String.data "x") (Options.mk false) =
      ([], some e)) ∧
    (∃ e, write_lines (String.data "Foo") [] (String.data "5,4") (Options.mk true) =
      ([], some e)) :=
  ⟨c7_fail_fast (String.data "x") (by decide) (String.data "Foo") [] (Options.mk false),
   c7_fail_fast (String.data "5,4") (by decide) (String.data "Foo") [] (Options.mk true)⟩

/-- Claim C10: `stream_split` writes exactly the input bytes (the
concatenation of the chunks delivered by `Read::read`), verbatim and in
order, to both sinks and nothing else; empty input leaves both sinks
empty. -/
theorem c10_stream_split_copies (chunks : List (List Nat)) (stdout stderr : List Nat)
    (_hread : ∀ c ∈ chunks, c ≠ [] ∧ c.length ≤ PAGE_SIZE) :
    stream_split chunks stdout stderr =
      (stdout ++ chunks.flatten, stderr ++ chunks.flatten) :=
  stream_split_flatten chunks stdout stderr

/-- Witness for C10: the empty stream leaves both sinks empty, and a two-chunk
stream is copied verbatim to both sinks. -/
theorem c10_witness :
    stream_split [] [] [] = ([], []) ∧
    stream_split ((1 :: 2 :: []) :: (3 :: []) :: []) [] [] =
      (1 :: 2 :: 3 :: [], 1 :: 2 :: 3 :: []) :=
  ⟨c10_stream_split_copies [] [] [] (by simp),
   c10_stream_split_copies ((1 :: 2 :: []) :: (3 :: []) :: []) [] [] (by decide)⟩

/-- Claim C3: for all integers `A ≥ 1` and `B > A` (written as usize numerals
`sa` and `sb`), parsing `"A..B"` yields the range with start `A` and inclusive
end `B - 1`, and parsing `"A..=B"` yields start `A` and end `B`. -/
theorem c3_range_parse (sa sb : List Char) (A B : Nat)
    (hA : 1 ≤ A) (hAB : A < B) (hdot : '.' ∉ sa)
    (hsa : parseUsize sa = some A) (hsb : parseUsize sb = some B) :
    Pattern.parse (sa ++ '.' :: '.' :: sb) =
      Except.ok (Pattern.mk (some A) (some (B - 1))) ∧
    Pattern.parse (sa ++ '.' :: '.' :: '=' :: sb) =
      Except.ok (Pattern.mk (some A) (some B)) := by
  have hstart := parseStart_of_usize sa A (by omega) hsa
  constructor
  · have hend := parseEnd_exclusive sb B (by omega) hsb
    simp only [Pattern.parse, splitOnce_dots_append sa sb hdot, hstart, hend]
    rw [if_neg (by omega)]
  · have hend := parseEnd_inclusive sb B (by omega) hsb
    simp only [Pattern.parse, splitOnce_dots_append sa ('=' :: sb) hdot, hstart, hend]
    rw [if_neg (by omega)]

/-- Witness for C3 at `A = 3`, `B = 7`: `"3..7"` parses to `3..=6` and
`"3..=7"` parses to `3..=7`. -/
theorem c3_witness :
    Pattern.parse (String.data "3..7") = Except.ok (Pattern.mk (some 3) (some 6)) ∧
    Pattern.parse (String.data "3..=7") = Except.ok (Pattern.mk (some 3) (some 7)) := by
  have h := c3_range_parse (String.data "3") (String.data "7") 3 7 (by decide) (by decide)
    (by decide) (by decide) (by decide)
  exact ⟨h.1, h.2⟩

/-- Claim C4: `Pattern::parse` fails on `"0"`, `"0..5"`, `"..0"` and `"..1"`,
and on any reversed token `"A..=B"` with `B < A` (such as `"9..=5"`). -/
theorem c4_parse_failures :
    exceptIsOk (Pattern.parse (String.data "0")) = false ∧
    exceptIsOk (Pattern.parse (String.data "0..5")) = false ∧
    exceptIsOk (Pattern.parse (String.data "..0")) = false ∧
    exceptIsOk (Pattern.parse (String.data "..1")) = false ∧
    (∀ (sa sb : List Char) (A B : Nat), '.' ∉ sa →
      parseUsize sa = some A → parseUsize sb = some B → B < A →
      exceptIsOk (Pattern.parse (sa ++ '.' :: '.' :: '=' :: sb)) = false) ∧
    ∀ (sa sb : List Char) (A B : Nat), '.' ∉ sa →
      parseUsize sa = some A → parseUsize sb = some B → B < A →
      exceptIsOk (Pattern.parse (sa ++ '.' :: '.' :: sb)) = false := by
  refine ⟨by decide, by decide, by decide, by decide, ?_, ?_⟩
  · intro sa sb A B hdot hsa hsb hBA
    have hstart := parseStart_of_usize sa A (by omega) hsa
    by_cases hB : B = 0
    · subst hB
      have hend : parseEnd ('=' :: sb) = Except.error "Line numbers are 1-indexed" := by
        simp [parseEnd, parseBound, hsb]
      simp only [Pattern.parse, splitOnce_dots_append sa ('=' :: sb) hdot, hstart, hend]
      rfl
    · have hend := parseEnd_inclusive sb B hB hsb
      simp only [Pattern.parse, splitOnce_dots_append sa ('=' :: sb) hdot, hstart, hend]
      rw [if_pos (by omega)]
      rfl
  · intro sa sb A B hdot hsa hsb hBA
    have hstart := parseStart_of_usize sa A (by omega) hsa
    by_cases hB : B ≤ 1
    · have hend := parseEnd_exclusive_small sb B hB hsb
      simp only [Pattern.parse, splitOnce_dots_append sa sb hdot, hstart, hend]
      rfl
    · have hend := parseEnd_exclusive sb B (by omega) hsb
      simp only [Pattern.parse, splitOnce_dots_append sa sb hdot, hstart, hend]
      rw [if_pos (by omega)]
      rfl

/-- Witness for C4 at the reversed tokens `"9..=5"` and `"9..5"`: parsing
fails on both. -/
theorem c4_witness :
    exceptIsOk (Pattern.parse (String.data "9..=5")) = false ∧
    exceptIsOk (Pattern.parse (String.data "9..5")) = false := by
  constructor
  · exact c4_parse_failures.2.2.2.2.1 (String.data "9") (String.data "5") 9 5
      (by decide) (by decide) (by decide) (by decide)
  · exact c4_parse_failures.2.2.2.2.2 (String.data "9") (String.data "5") 9 5
      (by decide) (by decide) (by decide) (by decide)

/-- Claim C5: with line numbers off, one input line produces one
newline-terminated copy of the line per pattern that includes its position,
in pattern-list order (`N` matching ranges give `N` copies); in particular
pattern `"1,2,2"` on input `"Foo\nBar"` outputs exactly `Foo`, `Bar`, `Bar`. -/
theorem c5_multiplicity :
    (∀ (pats : List Pattern) (n : Nat) (line : List Char),
        lineOutput (Options.mk false) n line pats =
          joinRecords (List.replicate
            (List.length (List.filter (fun p => p.is_included n) pats)) line)) ∧
    write_lines (String.data "Foo\nBar") [] (String.data "1,2,2") (Options.mk false) =
      (String.data "Foo\nBar\nBar\n", none) := by
  constructor
  · intro pats n line
    induction pats with
    | nil => rfl
    | cons p ps ih =>
      by_cases h : p.is_included n = true
      · simp [lineOutput, h, ih, joinRecords, List.replicate_succ]
      · simp [lineOutput, h, ih]
  · decide

/-- Claim C8: for every integer `N ≥ 1` written as a usize numeral `s`,
`parse(s)` yields the range with `start = end = N`, and that range includes
exactly the position `N`. -/
theorem c8_single_number (s : List Char) (N : Nat) (hN : 1 ≤ N)
    (hdot : '.' ∉ s) (hs : parseUsize s = some N) :
    Pattern.parse s = Except.ok (Pattern.mk (some N) (some N)) ∧
    ∀ m : Nat, ((Pattern.mk (some N) (some N)).is_included m = true ↔ m = N) := by
  constructor
  · simp only [Pattern.parse, splitOnce_dots_none s hdot, hs]
    rw [if_neg (by omega)]
  · intro m
    simp [Pattern.is_included]
    omega

/-- Witness for C8 at `N = 7`: `"7"` parses to `7..=7`, which includes 7 and
excludes 6 and 8. -/
theorem c8_witness :
    Pattern.parse (String.data "7") = Except.ok (Pattern.mk (some 7) (some 7)) ∧
    ((Pattern.mk (some 7) (some 7)).is_included 7 = true ↔ (7 : Nat) = 7) := by
  have h := c8_single_number (String.data "7") 7 (by decide) (by decide) (by decide)
  exact ⟨h.1, h.2 7⟩

/-- Claim C9: empty input with any valid pattern list yields no output; a
trailing segment without a terminating newline still counts as a line of the
reader; and input `"Foo\nBar\n\n"` under `".."` yields exactly the three
records `Foo`, `Bar` and the empty line. -/
theorem c9_boundaries :
    (∀ (patStr fout : List Char) (opts : Options), patternsValid patStr = true →
        write_lines [] fout patStr opts = (fout, none)) ∧
    (∀ s t : List Char, '\n' ∉ t → t ≠ [] →
        rustLines (s ++ '\n' :: t) = rustLines (s ++ '\n' :: []) ++ [t]) ∧
    write_lines (String.data "Foo\nBar\n\n") [] (String.data "..") (Options.mk false) =
      (joinRecords (String.data "Foo" :: String.data "Bar" :: [] :: []), none) := by
  refine ⟨?_, ?_, by decide⟩
  · intro patStr fout opts hvalid
    rw [patternsValid] at hvalid
    cases hm : (rustSplit ',' patStr).mapM Pattern.parse with
    | error e => rw [hm] at hvalid; simp at hvalid
    | ok pats =>
      rw [hm] at hvalid
      have hv2 : exceptIsOk (orderFold (Pattern.mk none none) pats) = true := hvalid
      cases ho : orderFold (Pattern.mk none none) pats with
      | error e => rw [ho] at hv2; simp [exceptIsOk] at hv2
      | ok p =>
        rw [write_lines_parse_ok [] fout patStr opts pats hm, ho]
        show (fout ++ writeLoop pats opts 1 (rustLines []), none) = (fout, none)
        simp [rustLines, rustLinesAux, writeLoop]
  · intro s t ht hne
    simp only [rustLines]
    exact rustLinesAux_mid t ht hne s []

/-- Witness for C9: empty input under `".."` yields no output, and the
unterminated trailing segment `"B"` of `"A\nB"` is still a line. -/
theorem c9_witness :
    write_lines [] [] (String.data "..") (Options.mk false) = ([], none) ∧
    rustLines (String.data "A" ++ '\n' :: String.data "B") =
      rustLines (String.data "A" ++ '\n' :: []) ++ [String.data "B"] :=
  ⟨c9_boundaries.1 (String.data "..") [] (Options.mk false) (by decide),
   c9_boundaries.2.1 (String.data "A") (String.data "B") (by decide) (by decide)⟩

end DaganUtils
